import Mathlib

/-!
Verification of the recap_server Blaze/TDF specification.

The development shallowly embeds the parts of the repository that the
specification's claims talk about:

* the application shell (`src/darkspore_server/source/main.cpp`):
  singleton initialisation, server construction, signal handling,
  shutdown and the top-level exception barrier;
* the default field values of `Blaze::ClientMessage`
  (`src/darkspore_server/source/blaze/functions.h`);
* the tag codec, the TDF wire codec and the dispatcher.  The sources of
  those components (tdf.h / tdf.cpp and the Blaze server sources) are not
  part of the repository snapshot, so they are modelled from the
  specification text (each such definition says so in its doc comment).

Machine integers are embedded as `Nat`/`Int` with explicit bounds where
they matter; byte streams are `List Nat` with every element below 256.
-/

namespace Recap

/-! ### Tag codec

Modelled from the spec (§4.1): the sources of `pack`/`unpack` (tdf.h /
tdf.cpp) are not in the repository snapshot.  A label is exactly four
characters drawn from `[A-Z0-9_ ]`; each character is a 6-bit index
(`c - 32`), the four indices occupy the top 24 bits of the 32-bit tag and
the low byte is the reserved kind nibble region used by the wire codec. -/

/-- The tag alphabet of the spec: uppercase letters, digits, underscore and
space. -/
def tagAlphabet : List Char :=
  [' ', '0', '1', '2', '3', '4', '5', '6', '7', '8', '9',
   'A', 'B', 'C', 'D', 'E', 'F', 'G', 'H', 'I', 'J', 'K', 'L', 'M',
   'N', 'O', 'P', 'Q', 'R', 'S', 'T', 'U', 'V', 'W', 'X', 'Y', 'Z', '_']

/-- Membership of a character in the tag alphabet. -/
def inAlphabet (c : Char) : Bool :=
  decide (c ∈ tagAlphabet)

/-- A four-character tag label. -/
structure Label where
  c0 : Char
  c1 : Char
  c2 : Char
  c3 : Char
deriving DecidableEq, Repr

/-- A label is valid when all four characters are drawn from the alphabet. -/
def validLabel (l : Label) : Bool :=
  inAlphabet l.c0 && inAlphabet l.c1 && inAlphabet l.c2 && inAlphabet l.c3

/-- The 6-bit index of a character: its code point minus 32. -/
def charIdx (c : Char) : Nat := c.toNat - 32

/-- Decode a 6-bit index back to a character; indices that do not denote an
alphabet character decode to the canonical filler character (space), so
decoding is total. -/
def idxChar (i : Nat) : Char :=
  let c := Char.ofNat (i % 64 + 32)
  if inAlphabet c then c else ' '

/-- The packed 32-bit form of a label: four 6-bit indices in the top 24
bits, low byte reserved for the wire codec's kind information. -/
def packBits (l : Label) : Nat :=
  (((charIdx l.c0 * 64 + charIdx l.c1) * 64 + charIdx l.c2) * 64 + charIdx l.c3) * 256

/-- Error raised by the tag codec. -/
inductive TagError where
  | MalformedTag
deriving DecidableEq, Repr

/-- Modelled from the spec: `pack` packs a valid label and fails with
`MalformedTag` when a non-alphabet character is supplied. -/
def pack (l : Label) : Except TagError Nat :=
  if validLabel l then .ok (packBits l) else .error .MalformedTag

/-- Modelled from the spec: `unpack` is total over all 32-bit inputs; each
6-bit group decodes to an alphabet character or the filler. -/
def unpack (t : Nat) : Label :=
  ⟨idxChar (t / 2 ^ 26 % 64), idxChar (t / 2 ^ 20 % 64),
   idxChar (t / 2 ^ 14 % 64), idxChar (t / 2 ^ 8 % 64)⟩

/-! ### Application shell (from `src/darkspore_server/source/main.cpp`) -/

/-- The flat key/value configuration bag of spec §6. -/
def Config := String → Option Nat

/-- A TCP endpoint opened by `Application::OnInit`. -/
structure ServerEndpoint where
  name : String
  port : Nat
deriving DecidableEq, Repr

/-- The servers constructed by `Application::OnInit` (main.cpp lines
56-67).  Every port is a literal constant in the source; the configuration
loaded on line 47 is not consulted for any of them. -/
def onInitServers (cfg : Config) : List ServerEndpoint :=
  [⟨"redirector", 42127⟩, ⟨"blaze", 10041⟩, ⟨"pss", 8443⟩, ⟨"tick", 8999⟩,
   ⟨"qos", 3659⟩, ⟨"http", 80⟩, ⟨"qos_http", 17502⟩]

/-- The port the main Blaze endpoint is bound to
(`std::make_unique<Blaze::Server>(mIoService, 10041)`, main.cpp line 57). -/
def blazePort (cfg : Config) : Nat := 10041

/-- The port the redirector endpoint is bound to
(`std::make_unique<Blaze::Server>(mIoService, 42127)`, main.cpp line 56). -/
def redirectorPort (cfg : Config) : Nat := 42127

/-- A configuration that sets `listen.blaze` to 1111 and
`listen.redirector` to 2222. -/
def cfgCustomPorts : Config := fun k =>
  if k = "listen.blaze" then some 1111
  else if k = "listen.redirector" then some 2222
  else none

/-- The observable steps of process shutdown.  The constructors cover both
what the source does and what the specification's graceful-shutdown
sentence describes, so either sequence is expressible. -/
inductive ShutdownStep where
  | stopEventLoop
  | stopAccepting
  | broadcastDrain
  | waitGracePeriod
  | forceCloseSessions
  | resetGameAPI
  | resetRedirectorServer
  | resetBlazeServer
  | resetHttpServer
  | resetQosServer
  | resetSporeNet
deriving DecidableEq, Repr

/-- What the process does on SIGINT/SIGTERM, from main.cpp: the signal
handler stops the io_context (line 22), `Run` returns, and `main` calls
`OnExit` (lines 78-87) which immediately destroys the components in
member order.  There is no drain broadcast and no grace period. -/
def shutdownSequence : List ShutdownStep :=
  [.stopEventLoop, .resetGameAPI, .resetRedirectorServer, .resetBlazeServer,
   .resetHttpServer, .resetQosServer, .resetSporeNet]

/-- Observable steps of `main` (main.cpp lines 126-135). -/
inductive MainStep where
  | initApp
  | onInit
  | runEventLoop
  | logException (msg : String)
  | onExit
deriving DecidableEq, Repr

/-- `Application::OnInit` always reaches `return true` (main.cpp line 75). -/
def appOnInit : Bool := true

/-- `Application::OnExit` always returns 0 (main.cpp line 86). -/
def appOnExit : Int := 0

/-- `Application::Run` (main.cpp lines 89-95): the io_context loop runs
inside a try block; a thrown `std::exception` is caught and written to
stderr, and `Run` returns normally either way.  The loop outcome is the
argument: `Except.error e` stands for a raised exception with message
`e`. -/
def appRun (loopOutcome : Except String Unit) : List MainStep :=
  match loopOutcome with
  | .ok _ => [.runEventLoop]
  | .error e => [.runEventLoop, .logException e]

/-- The whole `main` (main.cpp lines 126-135): init, run with the
exception barrier, teardown; the exit code is `OnExit`'s result (or 1 when
`OnInit` fails, which it never does). -/
def mainProgram (loopOutcome : Except String Unit) : List MainStep × Int :=
  if appOnInit then
    ([.initApp, .onInit] ++ appRun loopOutcome ++ [.onExit], appOnExit)
  else
    ([.initApp, .onInit, .onExit], 1)

/-- The static singleton state of `Application`: how many instances have
been allocated with `new`, and which instance `sApplication` points to
(`none` is the null pointer). -/
structure AppState where
  allocCount : Nat
  sApplication : Option Nat
deriving DecidableEq, Repr

/-- The state at program start: `Application* Application::sApplication =
nullptr;` (main.cpp line 19). -/
def initialAppState : AppState := ⟨0, none⟩

/-- `Application::InitApp` (main.cpp lines 25-30): allocate a new instance
only when `sApplication` is null, then return `*sApplication`.  The
returned `Nat` identifies the instance the reference points at; the
arguments are ignored by the source. -/
def InitApp (argc : Int) (argv : List String) (s : AppState) : AppState × Nat :=
  match s.sApplication with
  | none => (⟨s.allocCount + 1, some s.allocCount⟩, s.allocCount)
  | some inst => (s, inst)

/-- `Application::GetApp` (main.cpp lines 32-34): dereference
`sApplication`. -/
def GetApp (s : AppState) : Option Nat := s.sApplication

/-! ### Blaze::ClientMessage (from
`src/darkspore_server/source/blaze/functions.h`, lines 249-261) -/

/-- The `object_id` triple used by the Blaze structs. -/
structure ObjectId where
  component : Nat
  ty : Nat
  id : Nat
deriving DecidableEq, Repr

/-- `Blaze::ClientMessage` with the member initialisers of functions.h:
`attributes` default-constructs empty, `target { 0, 0, 0 }`, and `flags`,
`stat`, `tag`, `type` are all `= 0`. -/
structure ClientMessage where
  attributes : List (Nat × String)
  target : ObjectId
  flags : Nat
  stat : Nat
  tag : Nat
  ty : Nat
deriving DecidableEq, Repr

/-- A default-constructed `Blaze::ClientMessage`. -/
def ClientMessage.mkDefault : ClientMessage :=
  { attributes := []
    target := ⟨0, 0, 0⟩
    flags := 0
    stat := 0
    tag := 0
    ty := 0 }

/-! ### Variable-length integers

Modelled from the spec (§4.3): the TDF wire codec sources are not in the
repository snapshot.  Integers travel as zig-zag varints: 7 data bits per
byte, least-significant group first, MSB as continuation; the encoder
emits the smallest width that fits, the decoder accepts widths up to 10
bytes and rejects longer runs as `Malformed`. -/

/-- Error raised by the wire decoder. -/
inductive DecodeError where
  | Malformed
deriving DecidableEq, Repr

/-- Zig-zag map from a signed integer to the unsigned value put on the
wire: non-negative `i` becomes `2 * i`, negative `i` becomes
`2 * |i| - 1`. -/
def zigzag (i : Int) : Nat :=
  if 0 ≤ i then 2 * i.toNat else 2 * (-i).toNat - 1

/-- Inverse of `zigzag`. -/
def unzigzag (n : Nat) : Int :=
  if n % 2 = 0 then ((n / 2 : Nat) : Int) else -((n / 2 : Nat) : Int) - 1

/-- Minimal-width varint encoding of an unsigned value: 7 data bits per
byte, low group first, MSB set on every byte except the last. -/
def putVarint (n : Nat) : List Nat :=
  if n < 128 then [n] else (n % 128 + 128) :: putVarint (n / 128)
decreasing_by simp_wf; omega

/-- Varint decoder with a remaining-byte budget: consuming more than the
budget (10 bytes at top level) or running out of input is `Malformed`. -/
def getVarintAux : Nat → List Nat → Except DecodeError (Nat × List Nat)
  | _, [] => .error .Malformed
  | 0, _ :: _ => .error .Malformed
  | k + 1, b :: bs =>
    if b < 128 then .ok (b, bs)
    else
      match getVarintAux k bs with
      | .ok (n, rest) => .ok (b % 128 + 128 * n, rest)
      | .error e => .error e

/-- Top-level varint decoder: accepts any width up to 10 bytes. -/
def getVarint (bs : List Nat) : Except DecodeError (Nat × List Nat) :=
  getVarintAux 10 bs

/-- The value denoted by a varint byte run (low 7-bit group first). -/
def varintVal : List Nat → Nat
  | [] => 0
  | b :: bs => b % 128 + 128 * varintVal bs

/-- Recognises a well-formed varint byte run: non-empty, every byte below
256, continuation bit set on all but the last byte. -/
def isVarint : List Nat → Bool
  | [] => false
  | [b] => decide (b < 128)
  | b :: bs => decide (128 ≤ b) && decide (b < 256) && isVarint bs

/-- The wire encoding of a TDF integer: zig-zag then varint. -/
def encodeInteger (i : Int) : List Nat :=
  putVarint (zigzag i)

/-! ### TDF value tree and wire codec

Modelled from the spec (§3, §4.3): the TDF sources (tdf.h / tdf.cpp) are
not in the repository snapshot.  The value tree is a tagged sum over the
twelve wire kinds; the codec is the byte-level encode/decode of §4.3.
Floats are carried as their IEEE-754 32-bit patterns (`Nat` below `2^32`),
which is exactly the bit-exact round-trip the spec asks of them. -/

/-- The closed enumeration of wire-level kinds (spec §3). -/
inductive TdfType where
  | integer
  | string
  | blob
  | struct
  | list
  | map
  | union
  | objectType
  | objectId
  | float
  | triple
  | vector3
deriving DecidableEq, Repr

/-- The kind descriptor byte of a wire kind.  The spec fixes one byte per
kind but not the numbers; any injective assignment is faithful. -/
def kindByte : TdfType → Nat
  | .integer => 0
  | .string => 1
  | .blob => 2
  | .struct => 3
  | .list => 4
  | .map => 5
  | .union => 6
  | .objectType => 7
  | .objectId => 8
  | .float => 9
  | .triple => 10
  | .vector3 => 11

/-- Decode a kind descriptor byte; unexpected kind bytes are
`Malformed` (spec §4.3). -/
def byteKind : Nat → Except DecodeError TdfType
  | 0 => .ok .integer
  | 1 => .ok .string
  | 2 => .ok .blob
  | 3 => .ok .struct
  | 4 => .ok .list
  | 5 => .ok .map
  | 6 => .ok .union
  | 7 => .ok .objectType
  | 8 => .ok .objectId
  | 9 => .ok .float
  | 10 => .ok .triple
  | 11 => .ok .vector3
  | _ => .error .Malformed

/-- The TDF value tree (spec §3): a tagged sum over `TdfType`.  Struct
fields carry their packed 24-bit tag; lists declare one element kind; maps
declare a key kind and a value kind; a union is unset or carries the
active member byte together with the tagged value that follows it. -/
inductive TdfValue where
  | integer (i : Int)
  | string (bytes : List Nat)
  | blob (bytes : List Nat)
  | struct (fields : List (Nat × TdfValue))
  | list (elemKind : TdfType) (elems : List TdfValue)
  | map (keyKind valKind : TdfType) (entries : List (TdfValue × TdfValue))
  | union (active : Option (Nat × Nat × TdfValue))
  | objectType (component ty : Nat)
  | objectId (component ty entity : Nat)
  | float (bits : Nat)
  | triple (a b c : Nat)
  | vector3 (x y z : Nat)
deriving Repr

/-- The wire kind of a value. -/
def kindOf : TdfValue → TdfType
  | .integer _ => .integer
  | .string _ => .string
  | .blob _ => .blob
  | .struct _ => .struct
  | .list _ _ => .list
  | .map _ _ _ => .map
  | .union _ => .union
  | .objectType _ _ => .objectType
  | .objectId _ _ _ => .objectId
  | .float _ => .float
  | .triple _ _ _ => .triple
  | .vector3 _ _ _ => .vector3

/-- The three tag bytes of a packed 24-bit tag, most significant first. -/
def encTag (t : Nat) : List Nat :=
  [t / 65536 % 256, t / 256 % 256, t % 256]

/-- A field header: three tag bytes followed by the kind byte (spec
§4.3). -/
def encHeader (t : Nat) (k : TdfType) : List Nat :=
  encTag t ++ [kindByte k]

/-- Four little-endian bytes of a 32-bit value. -/
def le4 (n : Nat) : List Nat :=
  [n % 256, n / 256 % 256, n / 2 ^ 16 % 256, n / 2 ^ 24 % 256]

/-- Read four little-endian bytes. -/
def d4 : List Nat → Except DecodeError (Nat × List Nat)
  | b0 :: b1 :: b2 :: b3 :: rest =>
    .ok (b0 + 256 * b1 + 2 ^ 16 * b2 + 2 ^ 24 * b3, rest)
  | _ => .error .Malformed

/-- Read exactly `n` bytes. -/
def getBytes (n : Nat) (bs : List Nat) : Except DecodeError (List Nat × List Nat) :=
  if n ≤ bs.length then .ok (bs.take n, bs.drop n) else .error .Malformed

/-- A well-formed struct field tag: packed form of a four-character label,
below `2^24` and with a non-zero leading byte so that it is distinguishable
from the struct terminator. -/
def wfTag (t : Nat) : Bool :=
  decide (65536 ≤ t) && decide (t < 2 ^ 24)

mutual

/-- Bare wire encoding of a value, without a field header (spec §4.3). -/
def encBare : TdfValue → List Nat
  | .integer i => putVarint (zigzag i)
  | .string bs => putVarint (bs.length + 1) ++ bs ++ [0]
  | .blob bs => putVarint bs.length ++ bs
  | .struct fs => encFields fs ++ [0]
  | .list k es => kindByte k :: (putVarint es.length ++ encSeq es)
  | .map kk vk ps => kindByte kk :: kindByte vk :: (putVarint ps.length ++ encPairs ps)
  | .union Option.none => [127]
  | .union (Option.some (m, t, v)) => m :: (encHeader t (kindOf v) ++ encBare v)
  | .objectType c t => putVarint c ++ putVarint t
  | .objectId c t e => putVarint c ++ putVarint t ++ putVarint e
  | .float b => le4 b
  | .triple a b c => le4 a ++ le4 b ++ le4 c
  | .vector3 x y z => le4 x ++ le4 y ++ le4 z

/-- Encoding of a struct field sequence: header then bare value, field by
field (the struct terminator byte is added by `encBare`). -/
def encFields : List (Nat × TdfValue) → List Nat
  | [] => []
  | (t, v) :: fs => encHeader t (kindOf v) ++ encBare v ++ encFields fs

/-- Encoding of list elements: bare values back to back. -/
def encSeq : List TdfValue → List Nat
  | [] => []
  | v :: vs => encBare v ++ encSeq vs

/-- Encoding of map entries: alternating bare key/value pairs. -/
def encPairs : List (TdfValue × TdfValue) → List Nat
  | [] => []
  | (k, v) :: ps => encBare k ++ encBare v ++ encPairs ps

end

mutual

/-- Well-formedness of a value, the invariants of the spec §3 table:
integers are signed 64-bit, byte payloads are bytes, containers are
homogeneous with their declared kinds, a union's active member byte is
below the 0x7F sentinel, object components are u16, entities u64, float
payloads 32-bit patterns. -/
def wfV : TdfValue → Bool
  | .integer i => decide (-(2 ^ 63) ≤ i) && decide (i < 2 ^ 63)
  | .string bs => bs.all (fun b => decide (b < 256)) && decide (bs.length + 1 < 128 ^ 10)
  | .blob bs => bs.all (fun b => decide (b < 256)) && decide (bs.length < 128 ^ 10)
  | .struct fs => wfFields fs
  | .list k es => wfSeq k es && decide (es.length < 128 ^ 10)
  | .map kk vk ps => wfPairs kk vk ps && decide (ps.length < 128 ^ 10)
  | .union Option.none => true
  | .union (Option.some (m, t, v)) => decide (m < 127) && wfTag t && wfV v
  | .objectType c t => decide (c < 2 ^ 16) && decide (t < 2 ^ 16)
  | .objectId c t e => decide (c < 2 ^ 16) && decide (t < 2 ^ 16) && decide (e < 2 ^ 64)
  | .float b => decide (b < 2 ^ 32)
  | .triple a b c => decide (a < 2 ^ 32) && decide (b < 2 ^ 32) && decide (c < 2 ^ 32)
  | .vector3 x y z => decide (x < 2 ^ 32) && decide (y < 2 ^ 32) && decide (z < 2 ^ 32)

/-- Well-formedness of struct fields: valid tags, well-formed values. -/
def wfFields : List (Nat × TdfValue) → Bool
  | [] => true
  | (t, v) :: fs => wfTag t && wfV v && wfFields fs

/-- Well-formedness of list elements: each element has the declared kind
and is well-formed. -/
def wfSeq : TdfType → List TdfValue → Bool
  | _, [] => true
  | k, v :: vs => decide (kindOf v = k) && wfV v && wfSeq k vs

/-- Well-formedness of map entries: keys and values have the declared
kinds and are well-formed. -/
def wfPairs : TdfType → TdfType → List (TdfValue × TdfValue) → Bool
  | _, _, [] => true
  | kk, vk, (k, v) :: ps =>
    decide (kindOf k = kk) && decide (kindOf v = vk) && wfV k && wfV v && wfPairs kk vk ps

end

mutual

/-- Node-count measure of a value, used as decode fuel. -/
def vsize : TdfValue → Nat
  | .struct fs => 1 + vsizeFields fs
  | .list _ es => 1 + vsizeSeq es
  | .map _ _ ps => 1 + vsizePairs ps
  | .union (Option.some (_, _, v)) => 1 + vsize v
  | _ => 1

/-- Measure of struct fields. -/
def vsizeFields : List (Nat × TdfValue) → Nat
  | [] => 0
  | (_, v) :: fs => 1 + vsize v + vsizeFields fs

/-- Measure of list elements. -/
def vsizeSeq : List TdfValue → Nat
  | [] => 0
  | v :: vs => 1 + vsize v + vsizeSeq vs

/-- Measure of map entries. -/
def vsizePairs : List (TdfValue × TdfValue) → Nat
  | [] => 0
  | (k, v) :: ps => 1 + vsize k + vsize v + vsizePairs ps

end

mutual

/-- Bare wire decoder for one value of the given kind.  `fuel` bounds the
recursion depth; the top-level decoder passes the input length, which the
round-trip theorems show is always enough.  Decoding is strict: unexpected
kind bytes, truncated input and non-terminated strings are `Malformed`
(spec §4.3). -/
def decBare (fuel : Nat) (k : TdfType) (bs : List Nat) :
    Except DecodeError (TdfValue × List Nat) :=
  match fuel with
  | 0 => .error .Malformed
  | fuel + 1 =>
    match k with
    | .integer =>
      match getVarint bs with
      | .error e => .error e
      | .ok (n, rest) => .ok (.integer (unzigzag n), rest)
    | .string =>
      match getVarint bs with
      | .error e => .error e
      | .ok (n, rest) =>
        if n = 0 then .error .Malformed
        else
          match getBytes (n - 1) rest with
          | .error e => .error e
          | .ok (content, rest2) =>
            match rest2 with
            | 0 :: rest3 => .ok (.string content, rest3)
            | _ => .error .Malformed
    | .blob =>
      match getVarint bs with
      | .error e => .error e
      | .ok (n, rest) =>
        match getBytes n rest with
        | .error e => .error e
        | .ok (content, rest2) => .ok (.blob content, rest2)
    | .struct =>
      match decFields fuel bs with
      | .error e => .error e
      | .ok (fs, rest) => .ok (.struct fs, rest)
    | .list =>
      match bs with
      | [] => .error .Malformed
      | kb :: rest =>
        match byteKind kb with
        | .error e => .error e
        | .ok ek =>
          match getVarint rest with
          | .error e => .error e
          | .ok (n, rest2) =>
            match decSeq fuel ek n rest2 with
            | .error e => .error e
            | .ok (es, rest3) => .ok (.list ek es, rest3)
    | .map =>
      match bs with
      | kb :: vb :: rest =>
        match byteKind kb with
        | .error e => .error e
        | .ok kk =>
          match byteKind vb with
          | .error e => .error e
          | .ok vk =>
            match getVarint rest with
            | .error e => .error e
            | .ok (n, rest2) =>
              match decPairs fuel kk vk n rest2 with
              | .error e => .error e
              | .ok (ps, rest3) => .ok (.map kk vk ps, rest3)
      | _ => .error .Malformed
    | .union =>
      match bs with
      | [] => .error .Malformed
      | b :: rest =>
        if b = 127 then .ok (.union none, rest)
        else
          match rest with
          | t2 :: t1 :: t0 :: kb :: rest2 =>
            match byteKind kb with
            | .error e => .error e
            | .ok vk =>
              match decBare fuel vk rest2 with
              | .error e => .error e
              | .ok (v, rest3) =>
                .ok (.union (some (b, t2 * 65536 + t1 * 256 + t0, v)), rest3)
          | _ => .error .Malformed
    | .objectType =>
      match getVarint bs with
      | .error e => .error e
      | .ok (c, rest) =>
        match getVarint rest with
        | .error e => .error e
        | .ok (t, rest2) => .ok (.objectType c t, rest2)
    | .objectId =>
      match getVarint bs with
      | .error e => .error e
      | .ok (c, rest) =>
        match getVarint rest with
        | .error e => .error e
        | .ok (t, rest2) =>
          match getVarint rest2 with
          | .error e => .error e
          | .ok (en, rest3) => .ok (.objectId c t en, rest3)
    | .float =>
      match d4 bs with
      | .error e => .error e
      | .ok (b, rest) => .ok (.float b, rest)
    | .triple =>
      match d4 bs with
      | .error e => .error e
      | .ok (a, rest) =>
        match d4 rest with
        | .error e => .error e
        | .ok (b, rest2) =>
          match d4 rest2 with
          | .error e => .error e
          | .ok (c, rest3) => .ok (.triple a b c, rest3)
    | .vector3 =>
      match d4 bs with
      | .error e => .error e
      | .ok (x, rest) =>
        match d4 rest with
        | .error e => .error e
        | .ok (y, rest2) =>
          match d4 rest2 with
          | .error e => .error e
          | .ok (z, rest3) => .ok (.vector3 x y z, rest3)

/-- Decoder for a struct's field sequence, up to and including the
terminator byte at struct scope. -/
def decFields (fuel : Nat) (bs : List Nat) :
    Except DecodeError (List (Nat × TdfValue) × List Nat) :=
  match bs with
  | [] => .error .Malformed
  | 0 :: rest => .ok ([], rest)
  | t2 :: t1 :: t0 :: kb :: rest =>
    match fuel with
    | 0 => .error .Malformed
    | fuel + 1 =>
      match byteKind kb with
      | .error e => .error e
      | .ok k =>
        match decBare fuel k rest with
        | .error e => .error e
        | .ok (v, rest2) =>
          match decFields fuel rest2 with
          | .error e => .error e
          | .ok (fs, rest3) => .ok ((t2 * 65536 + t1 * 256 + t0, v) :: fs, rest3)
  | _ => .error .Malformed

/-- Decoder for `n` bare list elements of kind `k`. -/
def decSeq (fuel : Nat) (k : TdfType) (n : Nat) (bs : List Nat) :
    Except DecodeError (List TdfValue × List Nat) :=
  match n with
  | 0 => .ok ([], bs)
  | n + 1 =>
    match fuel with
    | 0 => .error .Malformed
    | fuel + 1 =>
      match decBare fuel k bs with
      | .error e => .error e
      | .ok (v, rest) =>
        match decSeq fuel k n rest with
        | .error e => .error e
        | .ok (vs, rest2) => .ok (v :: vs, rest2)

/-- Decoder for `n` bare key/value pairs of kinds `kk`/`vk`. -/
def decPairs (fuel : Nat) (kk vk : TdfType) (n : Nat) (bs : List Nat) :
    Except DecodeError (List (TdfValue × TdfValue) × List Nat) :=
  match n with
  | 0 => .ok ([], bs)
  | n + 1 =>
    match fuel with
    | 0 => .error .Malformed
    | fuel + 1 =>
      match decBare fuel kk bs with
      | .error e => .error e
      | .ok (kv, rest) =>
        match decBare fuel vk rest with
        | .error e => .error e
        | .ok (vv, rest2) =>
          match decPairs fuel kk vk n rest2 with
          | .error e => .error e
          | .ok (ps, rest3) => .ok ((kv, vv) :: ps, rest3)

end

/-- Wire encoding of one tagged value: field header, then the bare
value. -/
def encode (t : Nat) (v : TdfValue) : List Nat :=
  encHeader t (kindOf v) ++ encBare v

/-- Wire decoding of one tagged value: field header, then the bare value
of the announced kind.  Twice the input length serves as recursion fuel;
the fuel lemmas show this is always enough. -/
def decode (bs : List Nat) : Except DecodeError ((Nat × TdfValue) × List Nat) :=
  match bs with
  | t2 :: t1 :: t0 :: kb :: rest =>
    match byteKind kb with
    | .error e => .error e
    | .ok k =>
      match decBare (2 * bs.length) k rest with
      | .error e => .error e
      | .ok (v, rest2) => .ok ((t2 * 65536 + t1 * 256 + t0, v), rest2)
  | _ => .error .Malformed

mutual

/-- Structural equality of TDF values (spec §4.2): deep, ignoring the
order of struct fields and map entries but respecting the order of list
elements. -/
inductive TdfEquiv : TdfValue → TdfValue → Prop where
  | integer (i : Int) : TdfEquiv (.integer i) (.integer i)
  | string (bs : List Nat) : TdfEquiv (.string bs) (.string bs)
  | blob (bs : List Nat) : TdfEquiv (.blob bs) (.blob bs)
  | struct (fs hs gs : List (Nat × TdfValue)) (hperm : List.Perm fs hs)
      (h : EquivFields hs gs) : TdfEquiv (.struct fs) (.struct gs)
  | list (k : TdfType) (es fs : List TdfValue) (h : EquivSeq es fs) :
      TdfEquiv (.list k es) (.list k fs)
  | map (kk vk : TdfType) (ps hs qs : List (TdfValue × TdfValue))
      (hperm : List.Perm ps hs) (h : EquivPairs hs qs) :
      TdfEquiv (.map kk vk ps) (.map kk vk qs)
  | unionNone : TdfEquiv (.union none) (.union none)
  | unionSome (m t : Nat) (v w : TdfValue) (h : TdfEquiv v w) :
      TdfEquiv (.union (some (m, t, v))) (.union (some (m, t, w)))
  | objectType (c t : Nat) : TdfEquiv (.objectType c t) (.objectType c t)
  | objectId (c t e : Nat) : TdfEquiv (.objectId c t e) (.objectId c t e)
  | float (b : Nat) : TdfEquiv (.float b) (.float b)
  | triple (a b c : Nat) : TdfEquiv (.triple a b c) (.triple a b c)
  | vector3 (x y z : Nat) : TdfEquiv (.vector3 x y z) (.vector3 x y z)

/-- Pointwise structural equality of field sequences: same tags in the
same positions, values structurally equal. -/
inductive EquivFields : List (Nat × TdfValue) → List (Nat × TdfValue) → Prop where
  | nil : EquivFields [] []
  | cons (t : Nat) (v w : TdfValue) (fs gs : List (Nat × TdfValue))
      (hv : TdfEquiv v w) (h : EquivFields fs gs) :
      EquivFields ((t, v) :: fs) ((t, w) :: gs)

/-- Pointwise structural equality of element sequences. -/
inductive EquivSeq : List TdfValue → List TdfValue → Prop where
  | nil : EquivSeq [] []
  | cons (v w : TdfValue) (vs ws : List TdfValue) (hv : TdfEquiv v w)
      (h : EquivSeq vs ws) : EquivSeq (v :: vs) (w :: ws)

/-- Pointwise structural equality of entry sequences. -/
inductive EquivPairs : List (TdfValue × TdfValue) → List (TdfValue × TdfValue) → Prop where
  | nil : EquivPairs [] []
  | cons (k k' v v' : TdfValue) (ps qs : List (TdfValue × TdfValue))
      (hk : TdfEquiv k k') (hv : TdfEquiv v v') (h : EquivPairs ps qs) :
      EquivPairs ((k, v) :: ps) ((k', v') :: qs)

end

/-! ### Dispatcher

Modelled from the spec (§4.4, §4.6): the Blaze session and dispatcher
sources are not in the repository snapshot.  A frame header carries
component id, command id, error code, message kind, flags and message id;
the dispatcher routes Request frames by (component, command) and answers
unknown pairs with a `CommandNotFound` Error frame. -/

/-- The message kinds of the frame header (spec §3). -/
inductive MessageKind where
  | request
  | response
  | notification
  | error
  | ping
  | pong
deriving DecidableEq, Repr

/-- A decoded frame: the header routing metadata plus the TDF struct
payload. -/
structure Frame where
  component : Nat
  command : Nat
  errorCode : Nat
  kind : MessageKind
  flags : Nat
  msgId : Nat
  payload : TdfValue

/-- The result a handler returns to the dispatcher (spec §4.6 step 3). -/
inductive HandlerResult where
  | response (payload : TdfValue)
  | failure (code : Nat) (payload : Option TdfValue)
  | notify (frames : List Frame)

/-- The handler registry: at most one handler per (component, command). -/
def Registry := List ((Nat × Nat) × (TdfValue → HandlerResult))

/-- Look up the handler registered for a (component, command) pair. -/
def findHandler (reg : Registry) (c k : Nat) : Option (TdfValue → HandlerResult) :=
  match reg with
  | [] => none
  | ((c', k'), h) :: rest => if c' = c ∧ k' = k then some h else findHandler rest c k

/-- The "command not found" dispatch error code.  The spec names the code
but fixes no numeric value; the model uses 1. -/
def CommandNotFound : Nat := 1

/-- Whether the session stays open after a frame is dispatched. -/
inductive SessionAction where
  | keepOpen
  | close
deriving DecidableEq, Repr

/-- The Error frame answering frame `f` with dispatch error `code`: same
message id, kind `Error`, empty struct payload. -/
def mkErrorFrame (f : Frame) (code : Nat) : Frame :=
  { component := f.component
    command := f.command
    errorCode := code
    kind := .error
    flags := 0
    msgId := f.msgId
    payload := .struct [] }

/-- The frames a single handler invocation turns into (spec §4.6 steps 3
and 4): a response struct becomes a Response frame with error 0, an error
code becomes an Error frame, notifications pass through in order. -/
def marshal (f : Frame) (r : HandlerResult) : List Frame :=
  match r with
  | .response s =>
    [{ component := f.component
       command := f.command
       errorCode := 0
       kind := .response
       flags := 0
       msgId := f.msgId
       payload := s }]
  | .failure code s =>
    [{ component := f.component
       command := f.command
       errorCode := code
       kind := .error
       flags := 0
       msgId := f.msgId
       payload := s.getD (.struct []) }]
  | .notify ns => ns

/-- Dispatch of one inbound frame (spec §4.5, §4.6): a Ping is answered by
a Pong with the same message id without consulting the registry; a Request
is routed to its handler, or answered with a `CommandNotFound` Error frame
when no handler is registered; inbound Response/Error/Notification frames
complete session-side bookkeeping and emit nothing.  Dispatch errors never
close the session. -/
def dispatch (reg : Registry) (f : Frame) : List Frame × SessionAction :=
  match f.kind with
  | .ping => ([{ f with kind := .pong, payload := .struct [] }], .keepOpen)
  | .request =>
    match findHandler reg f.component f.command with
    | none => ([mkErrorFrame f CommandNotFound], .keepOpen)
    | some h => (marshal f (h f.payload), .keepOpen)
  | _ => ([], .keepOpen)

/-- A Request frame for which no handler is registered: component 999,
command 1, message id 42, empty struct payload (spec scenario S3). -/
def unknownRequest : Frame :=
  { component := 999
    command := 1
    errorCode := 0
    kind := .request
    flags := 0
    msgId := 42
    payload := .struct [] }

/-- A small well-formed sample value: a struct with an integer field and a
string field. -/
def sampleValue : TdfValue :=
  .struct [(1193046, .integer 7), (1234567, .string [102, 111, 111])]

/-! ## Theorems -/

/-- Every character of the tag alphabet survives the index round trip, and
its index fits in six bits. -/
theorem alpha_ok : ∀ c ∈ tagAlphabet, idxChar (charIdx c) = c ∧ charIdx c < 64 := by
  decide

/-- Every 6-bit group decodes to an alphabet character (or the filler,
which is itself the alphabet's space). -/
theorem idxChar_valid (i : Nat) : inAlphabet (idxChar i) = true := by
  unfold idxChar
  dsimp only
  split
  · assumption
  · decide

/-- C3: for every four-character label drawn from the alphabet
`[A-Z0-9_ ]`, unpacking the tag produced by packing the label returns the
original label. -/
theorem tag_roundtrip (l : Label) (h : validLabel l = true) :
    ∃ t, pack l = Except.ok t ∧ unpack t = l := by
  refine ⟨packBits l, by simp [pack, h], ?_⟩
  obtain ⟨c0, c1, c2, c3⟩ := l
  simp only [validLabel, Bool.and_eq_true] at h
  obtain ⟨⟨⟨h0, h1⟩, h2⟩, h3⟩ := h
  have m0 := alpha_ok c0 (of_decide_eq_true h0)
  have m1 := alpha_ok c1 (of_decide_eq_true h1)
  have m2 := alpha_ok c2 (of_decide_eq_true h2)
  have m3 := alpha_ok c3 (of_decide_eq_true h3)
  unfold unpack packBits
  dsimp only
  have e0 : (((charIdx c0 * 64 + charIdx c1) * 64 + charIdx c2) * 64 + charIdx c3) * 256
      / 2 ^ 26 % 64 = charIdx c0 := by
    have := m1.2; have := m2.2; have := m3.2
    omega
  have e1 : (((charIdx c0 * 64 + charIdx c1) * 64 + charIdx c2) * 64 + charIdx c3) * 256
      / 2 ^ 20 % 64 = charIdx c1 := by
    have := m2.2; have := m3.2
    omega
  have e2 : (((charIdx c0 * 64 + charIdx c1) * 64 + charIdx c2) * 64 + charIdx c3) * 256
      / 2 ^ 14 % 64 = charIdx c2 := by
    have := m3.2
    omega
  have e3 : (((charIdx c0 * 64 + charIdx c1) * 64 + charIdx c2) * 64 + charIdx c3) * 256
      / 2 ^ 8 % 64 = charIdx c3 := by
    omega
  rw [e0, e1, e2, e3, m0.1, m1.1, m2.1, m3.1]

/-- Witness for `tag_roundtrip` at the label PNAM. -/
theorem tag_roundtrip_witness :
    ∃ t, pack ⟨'P', 'N', 'A', 'M'⟩ = Except.ok t ∧ unpack t = ⟨'P', 'N', 'A', 'M'⟩ :=
  tag_roundtrip ⟨'P', 'N', 'A', 'M'⟩ (by decide)

/-- C7: `unpack` is total over all 32-bit inputs and always yields
alphabet characters (non-alphabet bits decode to the filler), and
`MalformedTag` is raised by `pack` exactly when the label contains a
character outside the alphabet. -/
theorem tag_total_spec :
    (∀ t : Nat, t < 2 ^ 32 → validLabel (unpack t) = true) ∧
    (∀ l : Label, pack l = Except.error TagError.MalformedTag ↔ validLabel l = false) := by
  constructor
  · intro t _
    simp [unpack, validLabel, idxChar_valid]
  · intro l
    unfold pack
    by_cases h : validLabel l
    · simp [h]
    · simp [h]

/-- Witness for `tag_total_spec`: totality at the all-ones 32-bit tag, and
`MalformedTag` for a lowercase label. -/
theorem tag_total_spec_witness :
    validLabel (unpack 4294967295) = true ∧
    (pack ⟨'a', 'B', 'C', 'D'⟩ = Except.error TagError.MalformedTag ↔
      validLabel ⟨'a', 'B', 'C', 'D'⟩ = false) :=
  ⟨tag_total_spec.1 4294967295 (by decide), tag_total_spec.2 ⟨'a', 'B', 'C', 'D'⟩⟩

/-- C1 counterexample: a configuration that sets `listen.blaze` to 1111
and `listen.redirector` to 2222, yet `OnInit` still binds the Blaze
endpoint to 10041 and the redirector to 42127 — the claim that the bound
ports follow the configuration keys is false at this input. -/
theorem ports_fixed_counterexample :
    cfgCustomPorts "listen.blaze" = some 1111 ∧
    cfgCustomPorts "listen.redirector" = some 2222 ∧
    blazePort cfgCustomPorts ≠ 1111 ∧
    redirectorPort cfgCustomPorts ≠ 2222 := by
  refine ⟨rfl, rfl, ?_, ?_⟩ <;> decide

/-- C1 (amended): for every loaded configuration, `OnInit` binds the main
Blaze endpoint to the fixed constant port 10041 and the redirector
endpoint to the fixed constant port 42127; the `listen.blaze` and
`listen.redirector` configuration keys do not influence the bound
ports. -/
theorem ports_are_constants (cfg : Config) :
    blazePort cfg = 10041 ∧ redirectorPort cfg = 42127 ∧
    ServerEndpoint.mk "blaze" 10041 ∈ onInitServers cfg ∧
    ServerEndpoint.mk "redirector" 42127 ∈ onInitServers cfg :=
  ⟨rfl, rfl, by simp [onInitServers], by simp [onInitServers]⟩

/-- C4 counterexample: the shutdown sequence of the source contains no
Drain broadcast, no grace period and no explicit force-close of the
remaining sessions — the claimed graceful-shutdown steps do not occur. -/
theorem shutdown_no_drain_counterexample :
    ShutdownStep.broadcastDrain ∉ shutdownSequence ∧
    ShutdownStep.waitGracePeriod ∉ shutdownSequence ∧
    ShutdownStep.forceCloseSessions ∉ shutdownSequence := by
  refine ⟨?_, ?_, ?_⟩ <;> decide

/-- C4 (amended): on receipt of a termination signal the server tears
everything down immediately: the signal handler stops the event loop and
`OnExit` destroys the components at once in member order; no Drain
notification is broadcast and no grace period is waited. -/
theorem shutdown_immediate_teardown :
    shutdownSequence =
      [ShutdownStep.stopEventLoop, ShutdownStep.resetGameAPI,
       ShutdownStep.resetRedirectorServer, ShutdownStep.resetBlazeServer,
       ShutdownStep.resetHttpServer, ShutdownStep.resetQosServer,
       ShutdownStep.resetSporeNet] ∧
    ShutdownStep.broadcastDrain ∉ shutdownSequence :=
  ⟨rfl, by decide⟩

/-- C5: every exception raised while the event loop runs is caught inside
`Run`, written to stderr, and the process still performs its orderly
teardown (`OnExit`) and exits normally with code 0. -/
theorem run_catches_exceptions (e : String) :
    appRun (Except.error e) = [MainStep.runEventLoop, MainStep.logException e] ∧
    mainProgram (Except.error e) =
      ([MainStep.initApp, MainStep.onInit, MainStep.runEventLoop,
        MainStep.logException e, MainStep.onExit], 0) :=
  ⟨rfl, rfl⟩

/-- C9: `InitApp` allocates the single instance on the first call, every
subsequent call (with any arguments) returns that same instance without
allocating another, and `GetApp` returns the same instance. -/
theorem initApp_idempotent (a1 : Int) (v1 : List String) (a2 : Int) (v2 : List String) :
    (InitApp a1 v1 initialAppState).1.sApplication = some (InitApp a1 v1 initialAppState).2 ∧
    (InitApp a1 v1 initialAppState).1.allocCount = 1 ∧
    GetApp (InitApp a1 v1 initialAppState).1 = some (InitApp a1 v1 initialAppState).2 ∧
    InitApp a2 v2 (InitApp a1 v1 initialAppState).1 =
      ((InitApp a1 v1 initialAppState).1, (InitApp a1 v1 initialAppState).2) :=
  ⟨rfl, rfl, rfl, rfl⟩

/-- C10: a default-constructed `Blaze::ClientMessage` has target
`(0, 0, 0)` and `flags`, `stat`, `tag`, `type` all 0 (and an empty
attribute map), so a message written without touching these fields
carries exactly those zero values. -/
theorem clientMessage_defaults :
    ClientMessage.mkDefault.target = ⟨0, 0, 0⟩ ∧
    ClientMessage.mkDefault.flags = 0 ∧
    ClientMessage.mkDefault.stat = 0 ∧
    ClientMessage.mkDefault.tag = 0 ∧
    ClientMessage.mkDefault.ty = 0 ∧
    ClientMessage.mkDefault.attributes = [] :=
  ⟨rfl, rfl, rfl, rfl, rfl, rfl⟩

/-- C8: an inbound Request whose (component, command) pair has no
registered handler is answered with exactly one Error frame carrying the
`CommandNotFound` code, kind `Error` and the Request's message id, and the
session stays open. -/
theorem dispatch_command_not_found (reg : Registry) (f : Frame)
    (hk : f.kind = MessageKind.request)
    (hh : findHandler reg f.component f.command = none) :
    dispatch reg f = ([mkErrorFrame f CommandNotFound], SessionAction.keepOpen) ∧
    (mkErrorFrame f CommandNotFound).errorCode = CommandNotFound ∧
    (mkErrorFrame f CommandNotFound).kind = MessageKind.error ∧
    (mkErrorFrame f CommandNotFound).msgId = f.msgId := by
  refine ⟨?_, rfl, rfl, rfl⟩
  simp only [dispatch, hk, hh]

/-- Witness for `dispatch_command_not_found`: the empty registry and the
unknown Request of scenario S3. -/
theorem dispatch_command_not_found_witness :
    dispatch [] unknownRequest =
      ([mkErrorFrame unknownRequest CommandNotFound], SessionAction.keepOpen) ∧
    (mkErrorFrame unknownRequest CommandNotFound).errorCode = CommandNotFound ∧
    (mkErrorFrame unknownRequest CommandNotFound).kind = MessageKind.error ∧
    (mkErrorFrame unknownRequest CommandNotFound).msgId = unknownRequest.msgId :=
  dispatch_command_not_found [] unknownRequest rfl rfl

/-- A varint encoding is never empty. -/
theorem putVarint_ne_nil (n : Nat) : putVarint n ≠ [] := by
  rw [putVarint]
  split <;> simp

/-- The encoder's output is a well-formed varint run. -/
theorem isVarint_putVarint (n : Nat) : isVarint (putVarint n) = true := by
  induction n using putVarint.induct with
  | case1 n h => simp [putVarint, h, isVarint]
  | case2 n h ih =>
    rw [putVarint, if_neg h]
    obtain ⟨b, t, ht⟩ := List.exists_cons_of_ne_nil (putVarint_ne_nil (n / 128))
    rw [ht] at ih ⊢
    simp only [isVarint, Bool.and_eq_true, decide_eq_true_eq]
    exact ⟨⟨by omega, by omega⟩, ih⟩

/-- The encoder's output denotes the encoded value. -/
theorem varintVal_putVarint (n : Nat) : varintVal (putVarint n) = n := by
  induction n using putVarint.induct with
  | case1 n h =>
    rw [putVarint, if_pos h]
    simp [varintVal]
    omega
  | case2 n h ih =>
    rw [putVarint, if_neg h]
    simp only [varintVal, ih]
    omega

/-- Minimality, upper half: the encoder never uses more bytes than any
width that fits the value. -/
theorem putVarint_length_le (n L : Nat) (h1 : 1 ≤ L) (h2 : n < 128 ^ L) :
    (putVarint n).length ≤ L := by
  induction n using putVarint.induct generalizing L with
  | case1 n h =>
    rw [putVarint, if_pos h]
    simpa using h1
  | case2 n h ih =>
    rw [putVarint, if_neg h]
    simp only [List.length_cons]
    have hL2 : 2 ≤ L := by
      rcases Nat.lt_or_ge L 2 with hc | hc
      · have : L = 1 := by omega
        subst this
        simp at h2
        omega
      · exact hc
    have hdiv : n / 128 < 128 ^ (L - 1) := by
      have hp : 128 ^ (L - 1) * 128 = 128 ^ L := by
        conv_rhs => rw [show L = (L - 1) + 1 by omega]
        rw [pow_succ]
      rw [Nat.div_lt_iff_lt_mul (by norm_num), hp]
      exact h2
    have := ih (L - 1) (by omega) hdiv
    omega

/-- Minimality, lower half: the value really needs the width the encoder
used. -/
theorem lt_pow_length_putVarint (n : Nat) : n < 128 ^ (putVarint n).length := by
  induction n using putVarint.induct with
  | case1 n h =>
    rw [putVarint, if_pos h]
    simpa using h
  | case2 n h ih =>
    rw [putVarint, if_neg h]
    simp only [List.length_cons]
    calc n < (n / 128 + 1) * 128 := by omega
      _ ≤ 128 ^ (putVarint (n / 128)).length * 128 :=
          Nat.mul_le_mul_right _ (by omega)
      _ = 128 ^ ((putVarint (n / 128)).length + 1) := by rw [pow_succ]

/-- The decoder accepts every well-formed varint run within its byte
budget and leaves the trailing bytes untouched. -/
theorem getVarintAux_ok (bs : List Nat) : ∀ k rest, isVarint bs = true → bs.length ≤ k →
    getVarintAux k (bs ++ rest) = .ok (varintVal bs, rest) := by
  induction bs with
  | nil => simp [isVarint]
  | cons b bs ih =>
    intro k rest hv hl
    obtain ⟨k, rfl⟩ : ∃ kk, k = kk + 1 := ⟨k - 1, by simp at hl; omega⟩
    cases bs with
    | nil =>
      have hb : b < 128 := by simpa [isVarint] using hv
      have hm : b % 128 = b := Nat.mod_eq_of_lt hb
      simp [getVarintAux, hb, varintVal, hm]
    | cons b' bs' =>
      have hv' : (128 ≤ b ∧ b < 256) ∧ isVarint (b' :: bs') = true := by
        simpa [isVarint, Bool.and_eq_true, decide_eq_true_eq] using hv
      have hnb : ¬ b < 128 := by omega
      have h2 := ih k rest hv'.2 (by simp at hl ⊢; omega)
      rw [List.cons_append] at h2
      simp only [List.cons_append, getVarintAux, if_neg hnb, List.append_eq, h2]
      rfl

/-- A zero byte budget rejects everything. -/
theorem getVarintAux_zero (bs : List Nat) : getVarintAux 0 bs = .error .Malformed := by
  cases bs <;> rfl

/-- A run of continuation bytes as long as the budget is `Malformed`. -/
theorem getVarintAux_overlong (bs : List Nat) : ∀ k rest, bs.length = k →
    (∀ b ∈ bs, 128 ≤ b) → getVarintAux k (bs ++ rest) = .error .Malformed := by
  induction bs with
  | nil =>
    intro k rest hl _
    simp at hl
    subst hl
    simpa using getVarintAux_zero rest
  | cons b bs ih =>
    intro k rest hl hb
    obtain ⟨k, rfl⟩ : ∃ kk, k = kk + 1 := ⟨k - 1, by simp at hl; omega⟩
    have h128 := hb b (by simp)
    have hnb : ¬ b < 128 := by omega
    simp only [List.cons_append, getVarintAux, if_neg hnb, List.append_eq]
    rw [ih k rest (by simp at hl; omega) (fun x hx => hb x (by simp [hx]))]

/-- Decoding a canonical varint encoding recovers the value. -/
theorem getVarint_putVarint (n : Nat) (rest : List Nat) (h : n < 128 ^ 10) :
    getVarint (putVarint n ++ rest) = .ok (n, rest) := by
  unfold getVarint
  rw [getVarintAux_ok _ 10 rest (isVarint_putVarint n) (putVarint_length_le n 10 (by omega) h),
    varintVal_putVarint]

/-- Zig-zag is injective with the explicit inverse. -/
theorem unzigzag_zigzag (i : Int) : unzigzag (zigzag i) = i := by
  unfold zigzag unzigzag
  split <;> split <;> omega

/-- Every signed 64-bit integer's zig-zag image fits in ten varint
bytes. -/
theorem zigzag_lt (i : Int) (h1 : -(2 ^ 63) ≤ i) (h2 : i < 2 ^ 63) :
    zigzag i < 128 ^ 10 := by
  have hp : (128 : Nat) ^ 10 = 1180591620717411303424 := by norm_num
  unfold zigzag
  split <;> omega

/-- C6: the wire encoding of a signed 64-bit integer is its zig-zag
varint, the encoded length is exactly the minimal varint width of the
zig-zagged value, the decoder accepts any well-formed width up to 10
bytes, and a run longer than 10 bytes fails with `Malformed`. -/
theorem integer_varint_spec :
    (∀ i : Int, -(2 ^ 63) ≤ i → i < 2 ^ 63 →
      encodeInteger i = putVarint (zigzag i) ∧
      unzigzag (zigzag i) = i ∧
      (encodeInteger i).length ≤ 10 ∧
      zigzag i < 128 ^ (encodeInteger i).length ∧
      (∀ L, 1 ≤ L → zigzag i < 128 ^ L → (encodeInteger i).length ≤ L)) ∧
    (∀ bs rest, isVarint bs = true → bs.length ≤ 10 →
      getVarint (bs ++ rest) = Except.ok (varintVal bs, rest)) ∧
    (∀ bs rest, bs.length = 10 → (∀ b ∈ bs, 128 ≤ b) →
      getVarint (bs ++ rest) = Except.error DecodeError.Malformed) := by
  refine ⟨?_, ?_, ?_⟩
  · intro i h1 h2
    exact ⟨rfl, unzigzag_zigzag i,
      putVarint_length_le _ 10 (by omega) (zigzag_lt i h1 h2),
      lt_pow_length_putVarint _,
      fun L hL hlt => putVarint_length_le _ L hL hlt⟩
  · intro bs rest hv hl
    exact getVarintAux_ok bs 10 rest hv hl
  · intro bs rest hl hb
    exact getVarintAux_overlong bs 10 rest hl hb

/-- Witness for `integer_varint_spec`: the integer −3 (a one-byte
encoding), the one-byte run `[5]`, and ten continuation bytes. -/
theorem integer_varint_spec_witness :
    unzigzag (zigzag (-3)) = -3 ∧
    (encodeInteger (-3)).length ≤ 1 ∧
    getVarint ([5] ++ [9]) = Except.ok (varintVal [5], [9]) ∧
    getVarint (List.replicate 10 200 ++ []) = Except.error DecodeError.Malformed :=
  ⟨(integer_varint_spec.1 (-3) (by decide) (by decide)).2.1,
   (integer_varint_spec.1 (-3) (by decide) (by decide)).2.2.2.2 1 (by decide) (by decide),
   integer_varint_spec.2.1 [5] [9] (by decide) (by decide),
   integer_varint_spec.2.2 (List.replicate 10 200) [] (by decide) (by decide)⟩

/-- Anything below `2^16` fits in a ten-byte varint. -/
theorem lt_pow10_u16 {x : Nat} (h : x < 2 ^ 16) : x < 128 ^ 10 := by
  have h1 : (128 : Nat) ^ 10 = 1180591620717411303424 := by norm_num
  have h2 : (2 : Nat) ^ 16 = 65536 := by norm_num
  omega

/-- Anything below `2^64` fits in a ten-byte varint. -/
theorem lt_pow10_u64 {x : Nat} (h : x < 2 ^ 64) : x < 128 ^ 10 := by
  have h1 : (128 : Nat) ^ 10 = 1180591620717411303424 := by norm_num
  have h2 : (2 : Nat) ^ 64 = 18446744073709551616 := by norm_num
  omega

/-- The kind byte decodes back to its kind. -/
theorem byteKind_kindByte (k : TdfType) : byteKind (kindByte k) = .ok k := by
  cases k <;> rfl

/-- Reading back exactly the bytes that were written. -/
theorem getBytes_append (bs tail : List Nat) :
    getBytes bs.length (bs ++ tail) = .ok (bs, tail) := by
  simp [getBytes, List.take_left, List.drop_left]

/-- A field header in cons form. -/
theorem encHeader_cons (t : Nat) (k : TdfType) (tail : List Nat) :
    encHeader t k ++ tail =
      t / 65536 % 256 :: (t / 256 % 256 :: (t % 256 :: (kindByte k :: tail))) := by
  simp [encHeader, encTag]

/-- Every value has positive measure. -/
theorem vsize_pos (v : TdfValue) : 1 ≤ vsize v := by
  cases v with
  | integer i => simp [vsize]
  | string bs => simp [vsize]
  | blob bs => simp [vsize]
  | struct fs => simp only [vsize]; omega
  | list k es => simp only [vsize]; omega
  | map kk vk ps => simp only [vsize]; omega
  | union o =>
    rcases o with _ | ⟨m, t, w⟩
    · simp [vsize]
    · simp only [vsize]; omega
  | objectType c t => simp [vsize]
  | objectId c t e => simp [vsize]
  | float b => simp [vsize]
  | triple a b c => simp [vsize]
  | vector3 x y z => simp [vsize]

/-- The measure of a value stays below twice the length of its bare
encoding (so twice the input length is always enough decode fuel). -/
theorem vsize_le_enc (n : Nat) :
    (∀ v, vsize v ≤ n → vsize v + 1 ≤ 2 * (encBare v).length) ∧
    (∀ fs, vsizeFields fs ≤ n → vsizeFields fs ≤ 2 * (encFields fs).length) ∧
    (∀ es, vsizeSeq es ≤ n → vsizeSeq es ≤ 2 * (encSeq es).length) ∧
    (∀ ps, vsizePairs ps ≤ n → vsizePairs ps ≤ 2 * (encPairs ps).length) := by
  induction n with
  | zero =>
    refine ⟨?_, ?_, ?_, ?_⟩
    · intro v hv
      have := vsize_pos v
      omega
    · intro fs h
      omega
    · intro es h
      omega
    · intro ps h
      omega
  | succ n ih =>
    obtain ⟨ihv, ihf, ihs, ihp⟩ := ih
    refine ⟨?_, ?_, ?_, ?_⟩
    · intro v hv
      cases v with
      | integer i =>
        simp only [vsize, encBare]
        have := List.length_pos.mpr (putVarint_ne_nil (zigzag i))
        omega
      | string bs =>
        simp only [vsize, encBare, List.length_append, List.length_cons]
        omega
      | blob bs =>
        simp only [vsize, encBare, List.length_append]
        have := List.length_pos.mpr (putVarint_ne_nil bs.length)
        omega
      | struct fs =>
        simp only [vsize] at hv ⊢
        simp only [encBare, List.length_append, List.length_cons, List.length_nil]
        have := ihf fs (by omega)
        omega
      | list k es =>
        simp only [vsize] at hv ⊢
        simp only [encBare, List.length_cons, List.length_append]
        have := ihs es (by omega)
        omega
      | map kk vk ps =>
        simp only [vsize] at hv ⊢
        simp only [encBare, List.length_cons, List.length_append]
        have := ihp ps (by omega)
        omega
      | union o =>
        rcases o with _ | ⟨m, t, w⟩
        · simp [vsize, encBare]
        · simp only [vsize] at hv ⊢
          simp only [encBare, encHeader, encTag, List.length_cons, List.length_append,
            List.length_nil]
          have := ihv w (by omega)
          omega
      | objectType c t =>
        simp only [vsize, encBare, List.length_append]
        have := List.length_pos.mpr (putVarint_ne_nil c)
        omega
      | objectId c t e =>
        simp only [vsize, encBare, List.length_append]
        have := List.length_pos.mpr (putVarint_ne_nil c)
        omega
      | float b => simp [vsize, encBare, le4]
      | triple a b c => simp [vsize, encBare, le4]
      | vector3 x y z => simp [vsize, encBare, le4]
    · intro fs h
      cases fs with
      | nil => simp [vsizeFields]
      | cons f fs =>
        obtain ⟨t, v⟩ := f
        simp only [vsizeFields] at h ⊢
        simp only [encFields, encHeader, encTag, List.length_append, List.length_cons,
          List.length_nil]
        have h1 := ihv v (by have := vsize_pos v; omega)
        have h2 := ihf fs (by have := vsize_pos v; omega)
        omega
    · intro es h
      cases es with
      | nil => simp [vsizeSeq]
      | cons v vs =>
        simp only [vsizeSeq] at h ⊢
        simp only [encSeq, List.length_append]
        have h1 := ihv v (by have := vsize_pos v; omega)
        have h2 := ihs vs (by have := vsize_pos v; omega)
        omega
    · intro ps h
      cases ps with
      | nil => simp [vsizePairs]
      | cons p ps =>
        obtain ⟨k, v⟩ := p
        simp only [vsizePairs] at h ⊢
        simp only [encPairs, List.length_append]
        have h1 := ihv k (by have := vsize_pos k; have := vsize_pos v; omega)
        have h2 := ihv v (by have := vsize_pos k; have := vsize_pos v; omega)
        have h3 := ihp ps (by have := vsize_pos k; have := vsize_pos v; omega)
        omega

/-- Decoding inverts encoding: given enough fuel, every well-formed
value, field sequence, element sequence and entry sequence decodes back
from its own encoding, leaving the trailing bytes untouched. -/
theorem dec_enc_all (fuel : Nat) :
    (∀ v rest, wfV v = true → vsize v ≤ fuel →
      decBare fuel (kindOf v) (encBare v ++ rest) = Except.ok (v, rest)) ∧
    (∀ fs rest, wfFields fs = true → vsizeFields fs ≤ fuel →
      decFields fuel (encFields fs ++ (0 :: rest)) = Except.ok (fs, rest)) ∧
    (∀ k es rest, wfSeq k es = true → vsizeSeq es ≤ fuel →
      decSeq fuel k es.length (encSeq es ++ rest) = Except.ok (es, rest)) ∧
    (∀ kk vk ps rest, wfPairs kk vk ps = true → vsizePairs ps ≤ fuel →
      decPairs fuel kk vk ps.length (encPairs ps ++ rest) = Except.ok (ps, rest)) := by
  induction fuel with
  | zero =>
    refine ⟨?_, ?_, ?_, ?_⟩
    · intro v rest _ hsz
      have := vsize_pos v
      omega
    · intro fs rest _ hsz
      cases fs with
      | nil => simp [encFields, decFields]
      | cons f fs =>
        obtain ⟨t, v⟩ := f
        simp only [vsizeFields] at hsz
        omega
    · intro k es rest _ hsz
      cases es with
      | nil => simp [encSeq, decSeq]
      | cons v vs =>
        simp only [vsizeSeq] at hsz
        omega
    · intro kk vk ps rest _ hsz
      cases ps with
      | nil => simp [encPairs, decPairs]
      | cons p ps =>
        obtain ⟨a, b⟩ := p
        simp only [vsizePairs] at hsz
        omega
  | succ fuel ih =>
    obtain ⟨ihv, ihf, ihs, ihp⟩ := ih
    refine ⟨?_, ?_, ?_, ?_⟩
    · intro v rest hwf hsz
      cases v with
      | integer i =>
        simp only [wfV, Bool.and_eq_true, decide_eq_true_eq] at hwf
        have hz : zigzag i < 128 ^ 10 := zigzag_lt i hwf.1 hwf.2
        have h1 := getVarint_putVarint (zigzag i) rest hz
        simp only [kindOf, encBare]
        unfold decBare
        simp [h1, unzigzag_zigzag]
      | string bs =>
        simp only [wfV, Bool.and_eq_true, decide_eq_true_eq] at hwf
        obtain ⟨hbytes, hlen⟩ := hwf
        have h1 := getVarint_putVarint (bs.length + 1) (bs ++ (0 :: rest)) hlen
        have h2 := getBytes_append bs (0 :: rest)
        simp only [kindOf, encBare, List.append_assoc, List.cons_append, List.nil_append]
        unfold decBare
        simp [h1, h2]
      | blob bs =>
        simp only [wfV, Bool.and_eq_true, decide_eq_true_eq] at hwf
        obtain ⟨hbytes, hlen⟩ := hwf
        have h1 := getVarint_putVarint bs.length (bs ++ rest) hlen
        have h2 := getBytes_append bs rest
        simp only [kindOf, encBare, List.append_assoc]
        unfold decBare
        simp [h1, h2]
      | struct fs =>
        simp only [wfV] at hwf
        simp only [vsize] at hsz
        have h1 := ihf fs rest hwf (by omega)
        simp only [kindOf, encBare, List.append_assoc, List.singleton_append]
        unfold decBare
        simp [h1]
      | list k es =>
        simp only [wfV, Bool.and_eq_true, decide_eq_true_eq] at hwf
        obtain ⟨hs, hlen⟩ := hwf
        simp only [vsize] at hsz
        have h1 := getVarint_putVarint es.length (encSeq es ++ rest) hlen
        have h2 := ihs k es rest hs (by omega)
        simp only [kindOf, encBare, List.cons_append, List.append_assoc]
        unfold decBare
        simp [byteKind_kindByte, h1, h2]
      | map kk vk ps =>
        simp only [wfV, Bool.and_eq_true, decide_eq_true_eq] at hwf
        obtain ⟨hp, hlen⟩ := hwf
        simp only [vsize] at hsz
        have h1 := getVarint_putVarint ps.length (encPairs ps ++ rest) hlen
        have h2 := ihp kk vk ps rest hp (by omega)
        simp only [kindOf, encBare, List.cons_append, List.append_assoc]
        unfold decBare
        simp [byteKind_kindByte, h1, h2]
      | union o =>
        rcases o with _ | ⟨m, t, w⟩
        · simp only [kindOf, encBare, List.cons_append, List.nil_append]
          unfold decBare
          simp
        · simp only [wfV, wfTag, Bool.and_eq_true, decide_eq_true_eq] at hwf
          obtain ⟨⟨hm, ht1, ht2⟩, hw⟩ := hwf
          simp only [vsize] at hsz
          have hif : m ≠ 127 := by omega
          have h1 := ihv w rest hw (by omega)
          simp only [kindOf] at h1
          have htageq : t / 65536 % 256 * 65536 + t / 256 % 256 * 256 + t % 256 = t := by
            omega
          simp only [kindOf, encBare, List.cons_append, List.append_assoc, encHeader_cons]
          unfold decBare
          simp [hif, byteKind_kindByte, h1, htageq]
      | objectType c t =>
        simp only [wfV, Bool.and_eq_true, decide_eq_true_eq] at hwf
        obtain ⟨hc, ht⟩ := hwf
        have h1 := getVarint_putVarint c (putVarint t ++ rest) (lt_pow10_u16 hc)
        have h2 := getVarint_putVarint t rest (lt_pow10_u16 ht)
        simp only [kindOf, encBare, List.append_assoc]
        unfold decBare
        simp [h1, h2]
      | objectId c t e =>
        simp only [wfV, Bool.and_eq_true, decide_eq_true_eq] at hwf
        obtain ⟨⟨hc, ht⟩, he⟩ := hwf
        have h1 := getVarint_putVarint c (putVarint t ++ (putVarint e ++ rest)) (lt_pow10_u16 hc)
        have h2 := getVarint_putVarint t (putVarint e ++ rest) (lt_pow10_u16 ht)
        have h3 := getVarint_putVarint e rest (lt_pow10_u64 he)
        simp only [kindOf, encBare, List.append_assoc]
        unfold decBare
        simp [h1, h2, h3]
      | float b =>
        simp only [wfV, decide_eq_true_eq] at hwf
        simp only [kindOf, encBare, le4, List.cons_append, List.nil_append]
        unfold decBare
        simp [d4]
        omega
      | triple a b c =>
        simp only [wfV, Bool.and_eq_true, decide_eq_true_eq] at hwf
        obtain ⟨⟨ha, hb⟩, hc⟩ := hwf
        simp only [kindOf, encBare, le4, List.cons_append, List.nil_append]
        unfold decBare
        simp [d4]
        omega
      | vector3 x y z =>
        simp only [wfV, Bool.and_eq_true, decide_eq_true_eq] at hwf
        obtain ⟨⟨hx, hy⟩, hz⟩ := hwf
        simp only [kindOf, encBare, le4, List.cons_append, List.nil_append]
        unfold decBare
        simp [d4]
        omega
    · intro fs rest hwf hsz
      cases fs with
      | nil => simp [encFields, decFields]
      | cons f fs =>
        obtain ⟨t, v⟩ := f
        simp only [wfFields, wfTag, Bool.and_eq_true, decide_eq_true_eq] at hwf
        obtain ⟨⟨⟨ht1, ht2⟩, hv⟩, hf⟩ := hwf
        simp only [vsizeFields] at hsz
        obtain ⟨a, ha⟩ : ∃ a, t / 65536 % 256 = a + 1 := ⟨t / 65536 % 256 - 1, by omega⟩
        have hv' := ihv v (encFields fs ++ (0 :: rest)) hv (by have := vsize_pos v; omega)
        have hf' := ihf fs rest hf (by have := vsize_pos v; omega)
        have htageq : (a + 1) * 65536 + t / 256 % 256 * 256 + t % 256 = t := by omega
        simp only [encFields, List.append_assoc, encHeader_cons, ha]
        unfold decFields
        simp [byteKind_kindByte, hv', hf', htageq]
    · intro k es rest hwf hsz
      cases es with
      | nil => simp [encSeq, decSeq]
      | cons v vs =>
        simp only [wfSeq, Bool.and_eq_true, decide_eq_true_eq] at hwf
        obtain ⟨⟨hk, hv⟩, hs⟩ := hwf
        simp only [vsizeSeq] at hsz
        have hv' := ihv v (encSeq vs ++ rest) hv (by have := vsize_pos v; omega)
        rw [hk] at hv'
        have hs' := ihs k vs rest hs (by have := vsize_pos v; omega)
        simp only [encSeq, List.append_assoc, List.length_cons]
        unfold decSeq
        simp [hv', hs']
    · intro kk vk ps rest hwf hsz
      cases ps with
      | nil => simp [encPairs, decPairs]
      | cons p ps =>
        obtain ⟨a, b⟩ := p
        simp only [wfPairs, Bool.and_eq_true, decide_eq_true_eq] at hwf
        obtain ⟨⟨⟨⟨hak, hbk⟩, hav⟩, hbv⟩, hp⟩ := hwf
        simp only [vsizePairs] at hsz
        have ha' := ihv a (encBare b ++ (encPairs ps ++ rest)) hav
          (by have := vsize_pos a; have := vsize_pos b; omega)
        rw [hak] at ha'
        have hb' := ihv b (encPairs ps ++ rest) hbv
          (by have := vsize_pos a; have := vsize_pos b; omega)
        rw [hbk] at hb'
        have hp' := ihp kk vk ps rest hp
          (by have := vsize_pos a; have := vsize_pos b; omega)
        simp only [encPairs, List.append_assoc, List.length_cons]
        unfold decPairs
        simp [ha', hb', hp']

/-- Structural equality is reflexive (proved by fuel induction over the
measure, together with its field/element/entry forms). -/
theorem equiv_refl_all (n : Nat) :
    (∀ v, vsize v ≤ n → TdfEquiv v v) ∧
    (∀ fs, vsizeFields fs ≤ n → EquivFields fs fs) ∧
    (∀ es, vsizeSeq es ≤ n → EquivSeq es es) ∧
    (∀ ps, vsizePairs ps ≤ n → EquivPairs ps ps) := by
  induction n with
  | zero =>
    refine ⟨?_, ?_, ?_, ?_⟩
    · intro v h
      have := vsize_pos v
      omega
    · intro fs h
      cases fs with
      | nil => exact .nil
      | cons f fs =>
        obtain ⟨t, v⟩ := f
        simp only [vsizeFields] at h
        omega
    · intro es h
      cases es with
      | nil => exact .nil
      | cons v vs =>
        simp only [vsizeSeq] at h
        omega
    · intro ps h
      cases ps with
      | nil => exact .nil
      | cons p ps =>
        obtain ⟨a, b⟩ := p
        simp only [vsizePairs] at h
        omega
  | succ n ih =>
    obtain ⟨ihv, ihf, ihs, ihp⟩ := ih
    refine ⟨?_, ?_, ?_, ?_⟩
    · intro v hv
      cases v with
      | integer i => exact .integer i
      | string bs => exact .string bs
      | blob bs => exact .blob bs
      | struct fs =>
        simp only [vsize] at hv
        exact .struct fs fs fs (List.Perm.refl fs) (ihf fs (by omega))
      | list k es =>
        simp only [vsize] at hv
        exact .list k es es (ihs es (by omega))
      | map kk vk ps =>
        simp only [vsize] at hv
        exact .map kk vk ps ps ps (List.Perm.refl ps) (ihp ps (by omega))
      | union o =>
        rcases o with _ | ⟨m, t, w⟩
        · exact .unionNone
        · simp only [vsize] at hv
          exact .unionSome m t w w (ihv w (by omega))
      | objectType c t => exact .objectType c t
      | objectId c t e => exact .objectId c t e
      | float b => exact .float b
      | triple a b c => exact .triple a b c
      | vector3 x y z => exact .vector3 x y z
    · intro fs h
      cases fs with
      | nil => exact .nil
      | cons f fs =>
        obtain ⟨t, v⟩ := f
        simp only [vsizeFields] at h
        exact .cons t v v fs fs (ihv v (by have := vsize_pos v; omega))
          (ihf fs (by have := vsize_pos v; omega))
    · intro es h
      cases es with
      | nil => exact .nil
      | cons v vs =>
        simp only [vsizeSeq] at h
        exact .cons v v vs vs (ihv v (by have := vsize_pos v; omega))
          (ihs vs (by have := vsize_pos v; omega))
    · intro ps h
      cases ps with
      | nil => exact .nil
      | cons p ps =>
        obtain ⟨a, b⟩ := p
        simp only [vsizePairs] at h
        exact .cons a a b b ps ps
          (ihv a (by have := vsize_pos a; have := vsize_pos b; omega))
          (ihv b (by have := vsize_pos a; have := vsize_pos b; omega))
          (ihp ps (by have := vsize_pos a; have := vsize_pos b; omega))

/-- Structural equality of TDF values is reflexive. -/
theorem tdfEquiv_refl (v : TdfValue) : TdfEquiv v v :=
  (equiv_refl_all (vsize v)).1 v (le_refl _)

/-- C2: decoding the bytes produced by encoding any well-formed tagged
value yields a value structurally equal to the original (structural
equality ignoring struct and map field order, respecting list order), with
the whole input consumed. -/
theorem tdf_roundtrip (t : Nat) (v : TdfValue) (ht : wfTag t = true) (hv : wfV v = true) :
    ∃ w, decode (encode t v) = Except.ok ((t, w), []) ∧ TdfEquiv w v := by
  refine ⟨v, ?_, tdfEquiv_refl v⟩
  simp only [wfTag, Bool.and_eq_true, decide_eq_true_eq] at ht
  obtain ⟨ht1, ht2⟩ := ht
  have hsz := (vsize_le_enc (vsize v)).1 v (le_refl _)
  have hbytes : encode t v =
      t / 65536 % 256 :: (t / 256 % 256 :: (t % 256 :: (kindByte (kindOf v) :: encBare v))) := by
    simp [encode, encHeader, encTag]
  have hfuel : vsize v ≤ 2 * ((encBare v).length + 4) := by omega
  have hdec := (dec_enc_all (2 * ((encBare v).length + 4))).1 v [] hv hfuel
  rw [List.append_nil] at hdec
  have htageq : t / 65536 % 256 * 65536 + t / 256 % 256 * 256 + t % 256 = t := by omega
  rw [hbytes]
  unfold decode
  simp only [List.length_cons, byteKind_kindByte]
  rw [show (encBare v).length + 1 + 1 + 1 + 1 = (encBare v).length + 4 from by omega]
  simp [hdec, htageq]

/-- Witness for `tdf_roundtrip`: a struct with an integer field and a
string field under the tag 0x123456. -/
theorem tdf_roundtrip_witness :
    ∃ w, decode (encode 1193046 sampleValue) = Except.ok ((1193046, w), []) ∧
      TdfEquiv w sampleValue :=
  tdf_roundtrip 1193046 sampleValue (by decide) (by decide)

end Recap
